import Mathlib

/-!
# Verification of the scope-engine core (`app/utils/scope_engine.py`)

Shallow embedding of the deterministic core of the repository's scope engine:
the schedule normalizer and resource/cost aggregator (`clean_scope`), the
rate-map resolution (`get_rate_map_for_project`), the JSON extraction helper
(`_extract_json` / `_strip_code_fences`), the content guard of
`generate_project_scope`, and the regression guard of
`regenerate_from_instructions`.

Modelling conventions:
* Calendar dates are represented by their day number (an `Int`); `datetime`
  subtraction, `timedelta(days=n)` and comparisons are then ordinary integer
  arithmetic.  The ISO rendering `strftime("%Y-%m-%d")` and the strict parse
  `strptime(.., "%Y-%m-%d")` of `_parse_date_safe` form a bijection between
  valid dates and their ISO strings, so a formatted-then-reparsed date is the
  same day number; a missing or unparseable date field is `none`.
* Python `float` arithmetic is modelled by exact rationals (`ℚ`) together with
  `round(x, 2)` as round-half-to-even at two decimals.  All quantities the
  engine rounds are far from the binary-representation tie cases exercised
  here, so the rational model agrees with the float behaviour on every input
  used in a theorem below.
* The raw `Resources` string is represented by its list of comma-separated
  pieces (possibly untrimmed or empty); the stored, cleaned `Resources` value
  is represented by its list of tokens.  `", ".join` followed by a re-split
  on "," plus `strip()` is the identity on such token lists (tokens are
  nonempty, trimmed and comma-free), so the round trip through the joined
  string is dropped from the model.
* Python `str.strip()`, `str.lower()` are `pyStrip`, `pyLower` below, acting
  on the character list of the string.
-/

/-! ## Python string primitives -/

/-- Python `str.strip()` on a character list: drop leading and trailing
whitespace. -/
def stripChars (l : List Char) : List Char :=
  ((l.dropWhile Char.isWhitespace).reverse.dropWhile Char.isWhitespace).reverse

/-- Python `str.strip()`. -/
def pyStrip (s : String) : String := ⟨stripChars s.data⟩

/-- Python `str.lower()` (ASCII case folding, which is all the engine's role
names use). -/
def pyLower (s : String) : String := ⟨s.data.map Char.toLower⟩

/-! ## Primitive max/min (kernel-computable) -/

/-- `max` on integers, by a decidable comparison. -/
def intMax (a b : Int) : Int := if a ≤ b then b else a

/-- `min` on integers, by a decidable comparison. -/
def intMin (a b : Int) : Int := if a ≤ b then a else b

/-- `max` on rationals, by a decidable comparison. -/
def ratMax (a b : ℚ) : ℚ := if a ≤ b then b else a

/-! ## Kernel-computable rational arithmetic

The arithmetic of the engine is stated over `ℚ`; these `mkRat`-based
operations compute it by explicit numerator/denominator formulas (proved
equal to the field operations below), so concrete runs reduce inside the
kernel. -/

/-- Rational multiplication, computably. -/
def ratMul (a b : ℚ) : ℚ := mkRat (a.num * b.num) (a.den * b.den)

/-- Rational addition, computably. -/
def ratAdd (a b : ℚ) : ℚ := mkRat (a.num * b.den + b.num * a.den) (a.den * b.den)

/-- Rational subtraction, computably. -/
def ratSub (a b : ℚ) : ℚ := mkRat (a.num * b.den - b.num * a.den) (a.den * b.den)

/-- Division by 100, computably (`discount / 100`). -/
def ratDiv100 (q : ℚ) : ℚ := mkRat q.num (q.den * 100)

/-- Python `sum(...)` over rationals: a left fold of additions from 0. -/
def ratSum (l : List ℚ) : ℚ := l.foldl ratAdd 0

/-! ## Python `round(x, 2)` on exact rationals -/

/-- Floor of a rational as an integer (`num.fdiv den`, exact). -/
def ratFloor (q : ℚ) : ℤ := q.num.fdiv q.den

/-- Round a rational to the nearest integer, ties to even — the rounding of
Python's builtin `round`.  With `f = ⌊q⌋`, the fractional part `q - f`
compares to `1/2` exactly as `2 * (q.num - f * q.den)` compares to `q.den`
(the denominator is positive), so the comparison is done on integers. -/
def roundHalfEven (q : ℚ) : ℤ :=
  let f := ratFloor q
  let r2 := 2 * (q.num - f * q.den)
  if r2 < (q.den : ℤ) then f
  else if (q.den : ℤ) < r2 then f + 1
  else if f % 2 = 0 then f else f + 1

/-- Python `round(x, 2)`: round `100 * x` half-to-even, divide by 100. -/
def round2 (q : ℚ) : ℚ := mkRat (roundHalfEven (mkRat (100 * q.num) q.den)) 100

/-! ## Rate maps (`ROLE_RATE_MAP`, `get_rate_map_for_project`) -/

/-- The static built-in role→monthly-rate table of `scope_engine.py`. -/
def ROLE_RATE_MAP : List (String × ℚ) :=
  [("Backend Developer", 3000), ("Frontend Developer", 2800),
   ("QA Analyst", 1800), ("QA Engineer", 2000), ("Data Engineer", 2800),
   ("Data Analyst", 2200), ("Data Architect", 3500), ("UX Designer", 2500),
   ("UI/UX Designer", 2600), ("Project Manager", 3500),
   ("Cloud Engineer", 3000), ("BI Developer", 2700),
   ("DevOps Engineer", 3200), ("Security Administrator", 3000),
   ("System Administrator", 2800), ("Solution Architect", 4000)]

/-- Python `dict.get(k)` on an association list (first binding wins, matching
a dict built from distinct keys). -/
def dictGet (m : List (String × ℚ)) (k : String) : Option ℚ :=
  (m.find? (fun p => p.1 == k)).map Prod.snd

/-- `get_rate_map_for_project`: the company's rate cards when the project has
a company with a nonempty card list (`none` models a missing `company_id` or
a database failure), else Sigmoid's nonempty card list, else the static
`ROLE_RATE_MAP`. -/
def get_rate_map_for_project (companyCards sigmoidCards : Option (List (String × ℚ))) :
    List (String × ℚ) :=
  match companyCards with
  | some (c :: cs) => c :: cs
  | _ =>
    match sigmoidCards with
    | some (c :: cs) => c :: cs
    | _ => ROLE_RATE_MAP

/-- Per-role rate resolution in `clean_scope`:
`RATE_MAP_DYNAMIC.get(role, ROLE_RATE_MAP.get(role, 2000.0))`. -/
def resolveRate (rateMap : List (String × ℚ)) (role : String) : ℚ :=
  (dictGet rateMap role).getD ((dictGet ROLE_RATE_MAP role).getD 2000)

/-! ## Activities -/

/-- An activity as it arrives from the extracted model JSON.  `owner = ""`
models a missing, `None` or empty `Owner` (all falsy in Python);
`resources` is the list of comma-separated pieces of the raw `Resources`
string; `startDate`/`endDate` are the values of `_parse_date_safe` without
fallback (`none` = missing or unparseable). -/
structure ActIn where
  activities : String
  description : String
  owner : String
  resources : List String
  startDate : Option Int
  endDate : Option Int
  deriving DecidableEq

/-- A normalized activity as produced by `clean_scope`: dense `ID`, stripped
name/description, the owner, cleaned resource tokens, resolved dates and the
derived `Effort Months`. -/
structure ActOut where
  id : Nat
  activities : String
  description : String
  owner : String
  resources : List String
  startDate : Int
  endDate : Int
  effortMonths : ℚ
  deriving DecidableEq

/-- `a.get("Owner") or "Unassigned"`. -/
def pyOwner (o : String) : String := if o = "" then "Unassigned" else o

/-- The cleaned resource tokens: strip every comma-separated piece, drop empty
pieces, and drop a piece equal (case-insensitively) to the owner. -/
def cleanDeps (owner : String) (resources : List String) : List String :=
  ((resources.map pyStrip).filter (fun r => r != "")).filter
    (fun r => pyLower r != pyLower owner)

/-- `s = _parse_date_safe(a.get("Start Date"), today)`. -/
def resolvedStart (today : Int) (a : ActIn) : Int := a.startDate.getD today

/-- `e = _parse_date_safe(a.get("End Date"), s + 30); if e < s: e = s + 30`. -/
def resolvedEnd (today : Int) (a : ActIn) : Int :=
  let s := resolvedStart today a
  let e0 := a.endDate.getD (s + 30)
  if e0 < s then s + 30 else e0

/-- Normalization of one activity (the body of the first loop of
`clean_scope`): owner fallback, resource cleaning, date fallbacks
(missing start → today; missing end → start + 30; end < start → start + 30),
stripped text fields and the derived effort-months. -/
def normAct (today : Int) (a : ActIn) : ActOut :=
  { id := 0
    activities := pyStrip a.activities
    description := pyStrip a.description
    owner := pyOwner a.owner
    resources := cleanDeps (pyOwner a.owner) a.resources
    startDate := resolvedStart today a
    endDate := resolvedEnd today a
    effortMonths := round2
      (mkRat (intMax 1 (resolvedEnd today a - resolvedStart today a)) 30) }

/-- Stable insertion used by `sortByStart`: place `a` before the first element
whose start date is not smaller, so elements with equal keys keep their
relative order. -/
def insertByStart (a : ActOut) : List ActOut → List ActOut
  | [] => [a]
  | b :: l => if b.startDate < a.startDate then b :: insertByStart a l else a :: b :: l

/-- Python's stable `activities.sort(key=start date)`.  Any two stable sorts
by the same key agree, so this insertion sort computes exactly the result of
`list.sort`. -/
def sortByStart : List ActOut → List ActOut
  | [] => []
  | a :: l => insertByStart a (sortByStart l)

/-- `for idx, a in enumerate(activities, start=1): a["ID"] = idx`. -/
def assignIdsFrom (i : Nat) : List ActOut → List ActOut
  | [] => []
  | a :: l => { a with id := i } :: assignIdsFrom (i + 1) l

/-- The normalized, sorted, densely renumbered activity list of
`clean_scope`. -/
def cleanActs (today : Int) (acts : List ActIn) : List ActOut :=
  assignIdsFrom 1 (sortByStart (acts.map (normAct today)))

/-! ## Project span -/

/-- `min(xs) if xs else dflt` (Python `min` of a nonempty list). -/
def listMin (dflt : Int) (l : List Int) : Int := (l.min?).getD dflt

/-- `max(xs) if xs else dflt`. -/
def listMax (dflt : Int) (l : List Int) : Int := (l.max?).getD dflt

/-- `min_start = min(start_dates) if start_dates else today`. -/
def minStart (today : Int) (acts : List ActIn) : Int :=
  listMin today ((acts.map (normAct today)).map ActOut.startDate)

/-- `max_end = max(end_dates) if end_dates else min_start`. -/
def maxEnd (today : Int) (acts : List ActIn) : Int :=
  listMax (minStart today acts) ((acts.map (normAct today)).map ActOut.endDate)

/-- `math.ceil(a / 30.0)` for an integer `a`. -/
def ceilDiv30 (a : Int) : Int := (a + 29).fdiv 30

/-- `total_months = max(1, math.ceil((max_end - min_start).days / 30.0))`. -/
def totalMonths (today : Int) (acts : List ActIn) : Nat :=
  (intMax 1 (ceilDiv30 (maxEnd today acts - minStart today acts))).toNat

/-! ## Role/month day usage and quantization -/

/-- The roles taking part in a cleaned activity: the owner plus every stored
resource token (re-splitting the stored `Resources` string recovers exactly
the tokens). -/
def involvedRoles (a : ActOut) : List String := a.owner :: a.resources

/-- Calendar-day overlap of an activity with the `m`-th relative month window
`[min_start + 30*m, min_start + 30*(m+1)]` — both endpoints included, since
the source counts `(overlap_end - overlap_start).days + 1` whenever
`overlap_end >= overlap_start`. -/
def overlapDays (minS : Int) (m : Nat) (a : ActOut) : Nat :=
  let relStart := minS + 30 * (m : Int)
  let relEnd := minS + 30 * ((m : Int) + 1)
  let oS := intMax a.startDate relStart
  let oE := intMin a.endDate relEnd
  if oS ≤ oE then (oE - oS + 1).toNat else 0

/-- Accumulated day count of a role in a relative month across all cleaned
activities; a role listed several times on one activity (the source iterates
`involved_roles` as a list) accumulates the overlap once per occurrence. -/
def roleMonthDays (acts : List ActOut) (minS : Int) (r : String) (m : Nat) : Nat :=
  (acts.map (fun a => (involvedRoles a).count r * overlapDays minS m a)).sum

/-- The 4-tier quantization of `clean_scope`: `d > 21 → 1.0`,
`15 ≤ d ≤ 21 → 0.75`, `8 ≤ d < 15 → 0.5`, `1 ≤ d < 8 → 0.25`, else `0.0`. -/
def quantize (d : Nat) : ℚ :=
  if 21 < d then 1
  else if 15 ≤ d ∧ d ≤ 21 then mkRat 3 4
  else if 8 ≤ d ∧ d < 15 then mkRat 1 2
  else if 1 ≤ d ∧ d < 8 then mkRat 1 4
  else 0

/-- The persisted allocation of a role in a relative month. -/
def roleMonthValue (acts : List ActOut) (minS : Int) (r : String) (m : Nat) : ℚ :=
  quantize (roleMonthDays acts minS r m)

/-! ## Role order and the resourcing plan -/

/-- The roles of one incoming activity, in the order of the first loop of
`clean_scope`: owner first, then the cleaned resource tokens. -/
def rolesOfIn (a : ActIn) : List String :=
  pyOwner a.owner :: cleanDeps (pyOwner a.owner) a.resources

/-- Append the roles not yet seen, preserving first-encounter order. -/
def addNewRoles (acc : List String) (rs : List String) : List String :=
  rs.foldl (fun acc r => if r ∈ acc then acc else acc ++ [r]) acc

/-- `role_order`: roles in order of first encounter while iterating the input
activities (before sorting). -/
def roleOrder (acts : List ActIn) : List String :=
  acts.foldl (fun acc a => addNewRoles acc (rolesOfIn a)) []

/-- One row of the resourcing plan. -/
structure PlanEntry where
  id : Nat
  role : String
  rate : ℚ
  months : List ℚ
  total : ℚ
  cost : ℚ
  deriving DecidableEq

/-- Build the resourcing plan rows for `roles`, numbering from `i`:
monthly efforts from the role/month allocation, `Efforts` as their sum,
the resolved rate, and `Cost = round(total_effort * rate, 2)`. -/
def mkPlanFrom (rateMap : List (String × ℚ)) (acts : List ActOut) (minS : Int)
    (months : Nat) (i : Nat) : List String → List PlanEntry
  | [] => []
  | role :: roles =>
    let monthVals := (List.range months).map (fun m => roleMonthValue acts minS role m)
    let total := ratSum monthVals
    let rate := resolveRate rateMap role
    { id := i, role := role, rate := rate, months := monthVals,
      total := total, cost := round2 (ratMul total rate) } ::
      mkPlanFrom rateMap acts minS months (i + 1) roles

/-- The discount step: when a positive discount percentage is present, every
row's cost — and nothing else — becomes `round(cost * (1 - d/100), 2)`. -/
def applyDiscount (disc : ℚ) (plan : List PlanEntry) : List PlanEntry :=
  if 0 < disc then
    plan.map (fun p => { p with cost := round2 (ratMul p.cost (ratSub 1 (ratDiv100 disc))) })
  else plan

/-! ## `clean_scope` -/

/-- The input of `clean_scope` that the claims depend on: the activity list
and the `discount_percentage` field (`0` models an absent or non-positive
discount). -/
structure ScopeIn where
  activities : List ActIn
  discount : ℚ
  deriving DecidableEq

/-- The output of `clean_scope` restricted to the deterministically computed
data: the normalized activity list, the project span data, the resourcing
plan and the preserved discount.  (`minStartVal` is the earliest start used
as the origin of the relative month windows.) -/
structure ScopeOut where
  activities : List ActOut
  minStartVal : Int
  months : Nat
  duration : ℚ
  plan : List PlanEntry
  discount : ℚ
  deriving DecidableEq

/-- `clean_scope` (the deterministic normalizer/aggregator), with the current
day and the resolved dynamic rate map as explicit parameters. -/
def clean_scope (today : Int) (rateMap : List (String × ℚ)) (inp : ScopeIn) : ScopeOut :=
  let acts := cleanActs today inp.activities
  let minS := minStart today inp.activities
  let span := maxEnd today inp.activities - minS
  let dur := ratMax 1 (round2 (mkRat (intMax 1 span) 30))
  let k := totalMonths today inp.activities
  let plan := applyDiscount inp.discount
    (mkPlanFrom rateMap acts minS k 1 (roleOrder inp.activities))
  { activities := acts, minStartVal := minS, months := k, duration := dur,
    plan := plan, discount := inp.discount }

/-- Reading a stored normalized activity back as input: the ISO-formatted
dates reparse to the same day numbers, and the joined `Resources` string
re-splits into the same tokens. -/
def ActOut.toIn (a : ActOut) : ActIn :=
  { activities := a.activities, description := a.description, owner := a.owner,
    resources := a.resources, startDate := some a.startDate,
    endDate := some a.endDate }

/-- Feeding a cleaned scope back into `clean_scope`. -/
def ScopeOut.toIn (s : ScopeOut) : ScopeIn :=
  { activities := s.activities.map ActOut.toIn, discount := s.discount }

/-! ## Helper lemmas: Python strip, owner/resources cleaning, sorting,
id assignment, list min/max -/

theorem dropWhile_dropWhile_eq (p : α → Bool) (l : List α) :
    (l.dropWhile p).dropWhile p = l.dropWhile p := by
  induction l with
  | nil => rfl
  | cons a l ih =>
    by_cases h : p a
    · simp [List.dropWhile_cons, h, ih]
    · simp [List.dropWhile_cons, h]

theorem dropWhile_eq_self_of_prefix (p : α → Bool) {l t : List α}
    (hl : l.dropWhile p = l) (ht : t <+: l) : t.dropWhile p = t := by
  cases t with
  | nil => rfl
  | cons a t =>
    obtain ⟨r, hr⟩ := ht
    subst hr
    rw [List.cons_append] at hl
    by_cases h : p a
    · exfalso
      have h1 : List.dropWhile p (a :: (t ++ r)) = List.dropWhile p (t ++ r) := by
        simp [List.dropWhile_cons, h]
      rw [hl] at h1
      have h2 : (List.dropWhile p (t ++ r)).length ≤ (t ++ r).length :=
        (List.dropWhile_suffix p).sublist.length_le
      rw [← h1] at h2
      simp at h2
    · simp [List.dropWhile_cons, h]

theorem stripChars_idem (l : List Char) : stripChars (stripChars l) = stripChars l := by
  set p := Char.isWhitespace with hp
  have hy : (l.dropWhile p).dropWhile p = l.dropWhile p := dropWhile_dropWhile_eq p l
  set y := l.dropWhile p with hydef
  have h0 : (y.reverse.dropWhile p).reverse <+: y.reverse.reverse :=
    (List.reverse_prefix).mpr (List.dropWhile_suffix p)
  rw [List.reverse_reverse] at h0
  have hz : ((y.reverse.dropWhile p).reverse).dropWhile p = (y.reverse.dropWhile p).reverse :=
    dropWhile_eq_self_of_prefix p hy h0
  show ((((y.reverse.dropWhile p).reverse).dropWhile p).reverse.dropWhile p).reverse
      = (y.reverse.dropWhile p).reverse
  rw [hz, List.reverse_reverse, dropWhile_dropWhile_eq]

theorem pyStrip_idem (s : String) : pyStrip (pyStrip s) = pyStrip s := by
  show (⟨stripChars (stripChars s.data)⟩ : String) = ⟨stripChars s.data⟩
  rw [stripChars_idem]

theorem pyOwner_ne_empty (o : String) : pyOwner o ≠ "" := by
  unfold pyOwner
  split
  · decide
  · assumption

theorem pyOwner_idem (o : String) : pyOwner (pyOwner o) = pyOwner o := by
  by_cases h : o = ""
  · subst h
    rfl
  · unfold pyOwner
    rw [if_neg h, if_neg h]

theorem mem_cleanDeps {o t : String} {rs : List String} (h : t ∈ cleanDeps o rs) :
    pyStrip t = t ∧ (t != "") = true ∧ (pyLower t != pyLower o) = true := by
  unfold cleanDeps at h
  rcases List.mem_filter.mp h with ⟨h1, hlow⟩
  rcases List.mem_filter.mp h1 with ⟨h2, hne⟩
  rcases List.mem_map.mp h2 with ⟨r, _, rfl⟩
  exact ⟨pyStrip_idem r, hne, hlow⟩

theorem cleanDeps_idem (o : String) (rs : List String) :
    cleanDeps o (cleanDeps o rs) = cleanDeps o rs := by
  have hmap : (cleanDeps o rs).map pyStrip = cleanDeps o rs := by
    have h1 : (cleanDeps o rs).map pyStrip = (cleanDeps o rs).map id :=
      List.map_congr_left (fun t ht => (mem_cleanDeps ht).1)
    rw [h1, List.map_id]
  show ((((cleanDeps o rs).map pyStrip).filter _).filter _) = cleanDeps o rs
  rw [hmap]
  rw [List.filter_eq_self.mpr (fun t ht => (mem_cleanDeps ht).2.1)]
  rw [List.filter_eq_self.mpr (fun t ht => (mem_cleanDeps ht).2.2)]

theorem assignIdsFrom_map_toIn (i : Nat) (l : List ActOut) :
    (assignIdsFrom i l).map ActOut.toIn = l.map ActOut.toIn := by
  induction l generalizing i with
  | nil => rfl
  | cons a l ih => simp [assignIdsFrom, ih, ActOut.toIn]

theorem assignIdsFrom_ids (i : Nat) (l : List ActOut) :
    (assignIdsFrom i l).map (fun b => b.id) = List.range' i l.length := by
  induction l generalizing i with
  | nil => rfl
  | cons a l ih => simp [assignIdsFrom, ih, List.range']

theorem assignIdsFrom_map_startDate (i : Nat) (l : List ActOut) :
    (assignIdsFrom i l).map (fun b => b.startDate) = l.map (fun b => b.startDate) := by
  induction l generalizing i with
  | nil => rfl
  | cons a l ih => simp [assignIdsFrom, ih]

theorem assignIdsFrom_map_owner (i : Nat) (l : List ActOut) :
    (assignIdsFrom i l).map (fun b => b.owner) = l.map (fun b => b.owner) := by
  induction l generalizing i with
  | nil => rfl
  | cons a l ih => simp [assignIdsFrom, ih]

theorem int_min?_eq_some_iff {a : ℤ} {xs : List ℤ} :
    xs.min? = some a ↔ a ∈ xs ∧ ∀ b ∈ xs, a ≤ b :=
  @List.min?_eq_some_iff ℤ a _ _ ⟨fun h1 h2 => le_antisymm h1 h2⟩
    (fun x => le_refl x) (fun x y => min_choice x y) (fun _ _ _ => le_min_iff) xs

theorem int_max?_eq_some_iff {a : ℤ} {xs : List ℤ} :
    xs.max? = some a ↔ a ∈ xs ∧ ∀ b ∈ xs, b ≤ a :=
  @List.max?_eq_some_iff ℤ a _ _ ⟨fun h1 h2 => le_antisymm h1 h2⟩
    (fun x => le_refl x) (fun x y => max_choice x y) (fun _ _ _ => max_le_iff) xs

theorem listMin_perm {l₁ l₂ : List ℤ} (h : l₁.Perm l₂) (d : ℤ) :
    listMin d l₁ = listMin d l₂ := by
  unfold listMin
  cases h1 : l₁.min? with
  | none =>
    have h0 : l₁ = [] := by
      cases l₁ with
      | nil => rfl
      | cons x xs => simp [List.min?_cons] at h1
    subst h0
    have h2 : l₂ = [] := h.symm.eq_nil
    subst h2
    rfl
  | some a =>
    rcases int_min?_eq_some_iff.mp h1 with ⟨hmem, hle⟩
    have h2 : l₂.min? = some a :=
      int_min?_eq_some_iff.mpr ⟨h.mem_iff.mp hmem, fun b hb => hle b (h.mem_iff.mpr hb)⟩
    rw [h2]

theorem insertByStart_perm (a : ActOut) (l : List ActOut) :
    (insertByStart a l).Perm (a :: l) := by
  induction l with
  | nil => simp [insertByStart]
  | cons b l ih =>
    by_cases h : b.startDate < a.startDate
    · simp only [insertByStart, if_pos h]
      exact (ih.cons b).trans (List.Perm.swap a b l)
    · simp [insertByStart, if_neg h]

theorem sortByStart_perm (l : List ActOut) : (sortByStart l).Perm l := by
  induction l with
  | nil => simp [sortByStart]
  | cons a l ih =>
    exact (insertByStart_perm a (sortByStart l)).trans (ih.cons a)

theorem insertByStart_sorted {l : List ActOut} (a : ActOut)
    (h : l.Pairwise (fun x y => x.startDate ≤ y.startDate)) :
    (insertByStart a l).Pairwise (fun x y => x.startDate ≤ y.startDate) := by
  induction l with
  | nil => simp [insertByStart]
  | cons b l ih =>
    rcases List.pairwise_cons.mp h with ⟨hb, hl⟩
    by_cases hba : b.startDate < a.startDate
    · simp only [insertByStart, if_pos hba]
      refine List.pairwise_cons.mpr ⟨?_, ih hl⟩
      intro x hx
      rcases List.mem_cons.mp ((insertByStart_perm a l).mem_iff.mp hx) with rfl | hxl
      · exact le_of_lt hba
      · exact hb x hxl
    · simp only [insertByStart, if_neg hba]
      refine List.pairwise_cons.mpr ⟨?_, h⟩
      intro x hx
      rcases List.mem_cons.mp hx with rfl | hxl
      · exact le_of_not_lt hba
      · exact le_trans (le_of_not_lt hba) (hb x hxl)

theorem sortByStart_sorted (l : List ActOut) :
    (sortByStart l).Pairwise (fun x y => x.startDate ≤ y.startDate) := by
  induction l with
  | nil => simp [sortByStart]
  | cons a l ih => exact insertByStart_sorted a ih

theorem sortByStart_of_sorted {l : List ActOut}
    (h : l.Pairwise (fun x y => x.startDate ≤ y.startDate)) : sortByStart l = l := by
  induction l with
  | nil => rfl
  | cons a l ih =>
    rcases List.pairwise_cons.mp h with ⟨ha, hl⟩
    show insertByStart a (sortByStart l) = a :: l
    rw [ih hl]
    cases l with
    | nil => rfl
    | cons b l =>
      have : ¬ b.startDate < a.startDate := not_lt.mpr (ha b (List.mem_cons_self b l))
      simp [insertByStart, this]

theorem resolvedStart_le_resolvedEnd (today : Int) (a : ActIn) :
    resolvedStart today a ≤ resolvedEnd today a := by
  unfold resolvedEnd
  set s := resolvedStart today a
  set e0 := a.endDate.getD (s + 30)
  by_cases h : e0 < s
  · rw [if_pos h]
    omega
  · rw [if_neg h]
    omega

theorem normAct_start_le_end (today : Int) (a : ActIn) :
    (normAct today a).startDate ≤ (normAct today a).endDate :=
  resolvedStart_le_resolvedEnd today a

theorem normAct_toIn (today : Int) (a : ActIn) :
    normAct today ((normAct today a).toIn) = normAct today a := by
  have hs : resolvedStart today ((normAct today a).toIn) = resolvedStart today a := rfl
  have he : resolvedEnd today ((normAct today a).toIn) = resolvedEnd today a := by
    show (if resolvedEnd today a < resolvedStart today a
          then resolvedStart today a + 30 else resolvedEnd today a) = resolvedEnd today a
    rw [if_neg (not_lt.mpr (resolvedStart_le_resolvedEnd today a))]
  show ActOut.mk 0 (pyStrip (pyStrip a.activities)) (pyStrip (pyStrip a.description))
      (pyOwner (pyOwner a.owner))
      (cleanDeps (pyOwner (pyOwner a.owner)) (cleanDeps (pyOwner a.owner) a.resources))
      (resolvedStart today ((normAct today a).toIn))
      (resolvedEnd today ((normAct today a).toIn))
      (round2 (mkRat (intMax 1 (resolvedEnd today ((normAct today a).toIn)
        - resolvedStart today ((normAct today a).toIn))) 30))
    = normAct today a
  rw [hs, he, pyStrip_idem, pyStrip_idem, pyOwner_idem, cleanDeps_idem]
  rfl

theorem mem_sortByStart_normAct {today : Int} {acts : List ActIn} {c : ActOut}
    (h : c ∈ sortByStart (acts.map (normAct today))) :
    normAct today c.toIn = c := by
  have h1 : c ∈ acts.map (normAct today) := (sortByStart_perm _).mem_iff.mp h
  rcases List.mem_map.mp h1 with ⟨a, _, rfl⟩
  exact normAct_toIn today a

theorem map_normAct_toIn_assign (today : Int) (S : List ActOut)
    (hS : ∀ c ∈ S, normAct today c.toIn = c) (i : Nat) :
    ((assignIdsFrom i S).map ActOut.toIn).map (normAct today) = S := by
  induction S generalizing i with
  | nil => rfl
  | cons c S ih =>
    have hc : ActOut.toIn { c with id := i } = ActOut.toIn c := rfl
    simp only [assignIdsFrom, List.map_cons, hc]
    rw [hS c (List.mem_cons_self c S), ih (fun d hd => hS d (List.mem_cons_of_mem c hd))]

theorem cleanActs_idem (today : Int) (acts : List ActIn) :
    cleanActs today ((cleanActs today acts).map ActOut.toIn) = cleanActs today acts := by
  unfold cleanActs
  rw [map_normAct_toIn_assign today _ (fun _ hc => mem_sortByStart_normAct hc) 1,
    sortByStart_of_sorted (sortByStart_sorted _)]

theorem listMax_perm {l₁ l₂ : List ℤ} (h : l₁.Perm l₂) (d : ℤ) :
    listMax d l₁ = listMax d l₂ := by
  unfold listMax
  cases h1 : l₁.max? with
  | none =>
    have h0 : l₁ = [] := by
      cases l₁ with
      | nil => rfl
      | cons x xs => simp [List.max?_cons] at h1
    subst h0
    have h2 : l₂ = [] := h.symm.eq_nil
    subst h2
    rfl
  | some a =>
    rcases int_max?_eq_some_iff.mp h1 with ⟨hmem, hle⟩
    have h2 : l₂.max? = some a :=
      int_max?_eq_some_iff.mpr ⟨h.mem_iff.mp hmem, fun b hb => hle b (h.mem_iff.mpr hb)⟩
    rw [h2]

theorem map_toIn_map_normAct_eq (today : Int) (acts : List ActIn) :
    ((cleanActs today acts).map ActOut.toIn).map (normAct today)
      = sortByStart (acts.map (normAct today)) :=
  map_normAct_toIn_assign today _ (fun _ hc => mem_sortByStart_normAct hc) 1

theorem minStart_idem (today : Int) (acts : List ActIn) :
    minStart today ((cleanActs today acts).map ActOut.toIn) = minStart today acts := by
  unfold minStart
  rw [map_toIn_map_normAct_eq]
  exact listMin_perm ((sortByStart_perm _).map ActOut.startDate) today

theorem maxEnd_idem (today : Int) (acts : List ActIn) :
    maxEnd today ((cleanActs today acts).map ActOut.toIn) = maxEnd today acts := by
  unfold maxEnd
  rw [map_toIn_map_normAct_eq, minStart_idem]
  exact listMax_perm ((sortByStart_perm _).map ActOut.endDate) _

theorem totalMonths_idem (today : Int) (acts : List ActIn) :
    totalMonths today ((cleanActs today acts).map ActOut.toIn) = totalMonths today acts := by
  unfold totalMonths
  rw [minStart_idem, maxEnd_idem]

theorem assignIdsFrom_dates_forall {P : Int → Int → Prop} {l : List ActOut}
    (h : ∀ c ∈ l, P c.startDate c.endDate) :
    ∀ i, ∀ b ∈ assignIdsFrom i l, P b.startDate b.endDate := by
  induction l with
  | nil => intro i b hb; cases hb
  | cons c l ih =>
    intro i b hb
    rcases List.mem_cons.mp hb with rfl | hb
    · exact h c (List.mem_cons_self c l)
    · exact ih (fun d hd => h d (List.mem_cons_of_mem c hd)) (i + 1) b hb

/-- C6: after normalization, ids are the dense sequence `1..N` in ascending
start-date order, start dates are non-decreasing, every end date is at least
its start date, and the date fallbacks are: missing/unparseable start →
today, missing end → start + 30, end before start → start + 30. -/
theorem C6_schedule_invariants (today : Int) (acts : List ActIn) :
    ((cleanActs today acts).map (fun b => b.id) = List.range' 1 acts.length) ∧
    (((cleanActs today acts).map (fun b => b.startDate)).Pairwise (fun x y => x ≤ y)) ∧
    (∀ b ∈ cleanActs today acts, b.startDate ≤ b.endDate) ∧
    (∀ a : ActIn, a.startDate = none → (normAct today a).startDate = today) ∧
    (∀ a : ActIn, a.endDate = none →
      (normAct today a).endDate = (normAct today a).startDate + 30) ∧
    (∀ a : ActIn, ∀ e : Int, a.endDate = some e → e < (normAct today a).startDate →
      (normAct today a).endDate = (normAct today a).startDate + 30) := by
  refine ⟨?_, ?_, ?_, ?_, ?_, ?_⟩
  · unfold cleanActs
    rw [assignIdsFrom_ids, (sortByStart_perm _).length_eq, List.length_map]
  · unfold cleanActs
    rw [assignIdsFrom_map_startDate]
    exact List.pairwise_map.mpr (sortByStart_sorted _)
  · unfold cleanActs
    refine assignIdsFrom_dates_forall ?_ 1
    intro c hc
    have h1 : c ∈ acts.map (normAct today) := (sortByStart_perm _).mem_iff.mp hc
    rcases List.mem_map.mp h1 with ⟨a, _, rfl⟩
    exact normAct_start_le_end today a
  · intro a h
    show resolvedStart today a = today
    unfold resolvedStart
    rw [h]
    rfl
  · intro a h
    show resolvedEnd today a = resolvedStart today a + 30
    unfold resolvedEnd
    rw [h]
    simp only [Option.getD_none]
    rw [if_neg (by omega)]
  · intro a e h hlt
    have hlt2 : e < resolvedStart today a := hlt
    show resolvedEnd today a = resolvedStart today a + 30
    unfold resolvedEnd
    rw [h]
    simp only [Option.getD_some]
    rw [if_pos hlt2]

def wAct1 : ActIn :=
  { activities := "Setup", description := "init", owner := "Project Manager",
    resources := ["QA Engineer"], startDate := some 5, endDate := some 9 }

def wAct2 : ActIn :=
  { activities := "Build", description := "core", owner := "Backend Developer",
    resources := [], startDate := none, endDate := none }

def wAct3 : ActIn :=
  { activities := "Test", description := "qa", owner := "QA Engineer",
    resources := [], startDate := some 8, endDate := some 2 }

def wActs : List ActIn := [wAct1, wAct2, wAct3]

def wOut2 : ActOut :=
  { id := 2, activities := "Setup", description := "init", owner := "Project Manager",
    resources := ["QA Engineer"], startDate := 5, endDate := 9,
    effortMonths := mkRat 13 100 }

/-- Witness for C6 at a concrete three-activity input exercising every
fallback: ids come out 1..3, a member's end is at least its start, a missing
start becomes today (0), a missing end becomes start + 30, and an end before
its start becomes start + 30. -/
theorem C6_schedule_invariants_witness :
    ((cleanActs 0 wActs).map (fun b => b.id) = List.range' 1 wActs.length) ∧
    wOut2.startDate ≤ wOut2.endDate ∧
    (normAct 0 wAct2).startDate = 0 ∧
    (normAct 0 wAct2).endDate = (normAct 0 wAct2).startDate + 30 ∧
    (normAct 0 wAct3).endDate = (normAct 0 wAct3).startDate + 30 :=
  ⟨(C6_schedule_invariants 0 wActs).1,
   (C6_schedule_invariants 0 wActs).2.2.1 wOut2 (by decide),
   (C6_schedule_invariants 0 wActs).2.2.2.1 wAct2 rfl,
   (C6_schedule_invariants 0 wActs).2.2.2.2.1 wAct2 rfl,
   (C6_schedule_invariants 0 wActs).2.2.2.2.2 wAct3 2 rfl (by decide)⟩


/-! ## Bridges between the computable rational operations and the field
operations of `ℚ` -/

theorem ratMul_eq (a b : ℚ) : ratMul a b = a * b := by
  unfold ratMul
  rw [Rat.mkRat_eq_div]
  push_cast
  rw [← div_mul_div_comm, Rat.num_div_den, Rat.num_div_den]

theorem ratAdd_eq (a b : ℚ) : ratAdd a b = a + b := by
  unfold ratAdd
  have ha : ((a.den : ℚ)) ≠ 0 := by exact_mod_cast a.den_nz
  have hb : ((b.den : ℚ)) ≠ 0 := by exact_mod_cast b.den_nz
  have h2 : a + b = (a.num : ℚ) / a.den + (b.num : ℚ) / b.den := by
    rw [Rat.num_div_den, Rat.num_div_den]
  rw [Rat.mkRat_eq_div, h2]
  push_cast
  field_simp

theorem ratSub_eq (a b : ℚ) : ratSub a b = a - b := by
  unfold ratSub
  have ha : ((a.den : ℚ)) ≠ 0 := by exact_mod_cast a.den_nz
  have hb : ((b.den : ℚ)) ≠ 0 := by exact_mod_cast b.den_nz
  have h2 : a - b = (a.num : ℚ) / a.den - (b.num : ℚ) / b.den := by
    rw [Rat.num_div_den, Rat.num_div_den]
  rw [Rat.mkRat_eq_div, h2]
  push_cast
  field_simp
  ring

theorem ratDiv100_eq (q : ℚ) : ratDiv100 q = q / 100 := by
  unfold ratDiv100
  have hq : ((q.den : ℚ)) ≠ 0 := by exact_mod_cast q.den_nz
  have h2 : q / 100 = (q.num : ℚ) / q.den / 100 := by rw [Rat.num_div_den]
  rw [Rat.mkRat_eq_div, h2]
  push_cast
  rw [div_div]

theorem ratSum_eq (l : List ℚ) : ratSum l = l.sum := by
  have key : ∀ (l : List ℚ) (init : ℚ), l.foldl ratAdd init = init + l.sum := by
    intro l
    induction l with
    | nil => intro init; simp
    | cons x l ih =>
      intro init
      show List.foldl ratAdd (ratAdd init x) l = init + (x :: l).sum
      rw [ih (ratAdd init x), ratAdd_eq, List.sum_cons]
      ring
  unfold ratSum
  rw [key l 0, zero_add]

theorem mkRat_34 : mkRat 3 4 = (3/4 : ℚ) := by
  rw [Rat.mkRat_eq_div]
  norm_num

theorem mkRat_12 : mkRat 1 2 = (1/2 : ℚ) := by
  rw [Rat.mkRat_eq_div]
  norm_num

theorem mkRat_14 : mkRat 1 4 = (1/4 : ℚ) := by
  rw [Rat.mkRat_eq_div]
  norm_num

/-- C1: the quantizer of `clean_scope` maps accumulated day counts to effort
units exactly by the tiers `d > 21 → 1.0`, `15 ≤ d ≤ 21 → 0.75`,
`8 ≤ d < 15 → 0.5`, `1 ≤ d < 8 → 0.25`, `d = 0 → 0.0`, with the boundary
values 21, 15, 14, 8, 7, 0 landing as stated; every role/month cell of the
allocation is the quantization of that cell's accumulated day count. -/
theorem C1_quantization_tiers (d : Nat) :
    (21 < d → quantize d = 1) ∧
    (15 ≤ d → d ≤ 21 → quantize d = 3/4) ∧
    (8 ≤ d → d < 15 → quantize d = 1/2) ∧
    (1 ≤ d → d < 8 → quantize d = 1/4) ∧
    (d = 0 → quantize d = 0) ∧
    quantize 21 = 3/4 ∧ quantize 15 = 3/4 ∧ quantize 14 = 1/2 ∧
    quantize 8 = 1/2 ∧ quantize 7 = 1/4 ∧ quantize 0 = 0 ∧
    (∀ acts minS r m, roleMonthValue acts minS r m = quantize (roleMonthDays acts minS r m)) := by
  refine ⟨?_, ?_, ?_, ?_, ?_, by rw [← mkRat_34]; decide, by rw [← mkRat_34]; decide,
    by rw [← mkRat_12]; decide, by rw [← mkRat_12]; decide, by rw [← mkRat_14]; decide,
    by decide, fun _ _ _ _ => rfl⟩
  · intro h
    unfold quantize
    rw [if_pos h]
  · intro h1 h2
    unfold quantize
    rw [if_neg (by omega), if_pos ⟨h1, h2⟩, mkRat_34]
  · intro h1 h2
    unfold quantize
    rw [if_neg (by omega), if_neg (by omega), if_pos ⟨h1, h2⟩, mkRat_12]
  · intro h1 h2
    unfold quantize
    rw [if_neg (by omega), if_neg (by omega), if_neg (by omega), if_pos ⟨h1, h2⟩, mkRat_14]
  · intro h
    subst h
    decide

/-- Witness for C1: one representative in each tier. -/
theorem C1_quantization_tiers_witness :
    quantize 25 = 1 ∧ quantize 18 = 3/4 ∧ quantize 10 = 1/2 ∧
    quantize 3 = 1/4 ∧ quantize 0 = 0 :=
  ⟨(C1_quantization_tiers 25).1 (by decide),
   (C1_quantization_tiers 18).2.1 (by decide) (by decide),
   (C1_quantization_tiers 10).2.2.1 (by decide) (by decide),
   (C1_quantization_tiers 3).2.2.2.1 (by decide) (by decide),
   (C1_quantization_tiers 0).2.2.2.2.1 rfl⟩

/-- C3 (amended): re-running `clean_scope` on its own output reproduces the
activity list exactly (same ids, dates and all fields), the project window,
duration and month count, the discount, and every role/month allocation
value.  (Byte-identity of the whole output fails only in the resourcing-plan
row order; see the counterexample.) -/
theorem C3_clean_scope_idempotent_amended (today : Int) (rateMap : List (String × ℚ))
    (inp : ScopeIn) :
    (clean_scope today rateMap ((clean_scope today rateMap inp).toIn)).activities
      = (clean_scope today rateMap inp).activities ∧
    (clean_scope today rateMap ((clean_scope today rateMap inp).toIn)).minStartVal
      = (clean_scope today rateMap inp).minStartVal ∧
    (clean_scope today rateMap ((clean_scope today rateMap inp).toIn)).months
      = (clean_scope today rateMap inp).months ∧
    (clean_scope today rateMap ((clean_scope today rateMap inp).toIn)).duration
      = (clean_scope today rateMap inp).duration ∧
    (clean_scope today rateMap ((clean_scope today rateMap inp).toIn)).discount
      = (clean_scope today rateMap inp).discount ∧
    (∀ r m, roleMonthValue
        (clean_scope today rateMap ((clean_scope today rateMap inp).toIn)).activities
        (clean_scope today rateMap ((clean_scope today rateMap inp).toIn)).minStartVal r m
      = roleMonthValue (clean_scope today rateMap inp).activities
        (clean_scope today rateMap inp).minStartVal r m) := by
  have hact :
      (clean_scope today rateMap ((clean_scope today rateMap inp).toIn)).activities
        = (clean_scope today rateMap inp).activities := by
    show cleanActs today ((cleanActs today inp.activities).map ActOut.toIn)
        = cleanActs today inp.activities
    exact cleanActs_idem today inp.activities
  have hmin :
      (clean_scope today rateMap ((clean_scope today rateMap inp).toIn)).minStartVal
        = (clean_scope today rateMap inp).minStartVal := by
    show minStart today ((cleanActs today inp.activities).map ActOut.toIn)
        = minStart today inp.activities
    exact minStart_idem today inp.activities
  refine ⟨hact, hmin, ?_, ?_, rfl, ?_⟩
  · show totalMonths today ((cleanActs today inp.activities).map ActOut.toIn)
        = totalMonths today inp.activities
    exact totalMonths_idem today inp.activities
  · show ratMax 1 (round2 (mkRat (intMax 1
        (maxEnd today ((cleanActs today inp.activities).map ActOut.toIn)
          - minStart today ((cleanActs today inp.activities).map ActOut.toIn))) 30))
      = ratMax 1 (round2 (mkRat (intMax 1
        (maxEnd today inp.activities - minStart today inp.activities)) 30))
    rw [maxEnd_idem, minStart_idem]
  · intro r m
    rw [hact, hmin]

def cxLate : ActIn :=
  { activities := "Later", description := "d", owner := "RoleB",
    resources := [], startDate := some 10, endDate := some 20 }

def cxEarly : ActIn :=
  { activities := "Earlier", description := "d", owner := "RoleA",
    resources := [], startDate := some 0, endDate := some 5 }

def cxScope : ScopeIn := { activities := [cxLate, cxEarly], discount := 0 }

/-- Counterexample to C3 as stated: for an input whose activities arrive out
of start-date order, re-running `clean_scope` on its own output is not
byte-identical — the resourcing-plan rows come out in a different order
(role first-encounter order changes once the activities are sorted), even
though activities and allocation values agree. -/
theorem C3_not_byte_identical :
    clean_scope 0 [] ((clean_scope 0 [] cxScope).toIn) ≠ clean_scope 0 [] cxScope := by
  decide

def c2ActA : ActIn :=
  { activities := "A", description := "build", owner := "Backend Developer",
    resources := ["QA Engineer"], startDate := some 0, endDate := some 30 }

def c2ActB : ActIn :=
  { activities := "B", description := "test", owner := "QA Engineer",
    resources := [], startDate := some 19, endDate := some 50 }

def c2Scope : ScopeIn := { activities := [c2ActA, c2ActB], discount := 0 }

/-- Counterexample to C2 as stated: with activity A = 2025-01-01..2025-01-31
(owner "Backend Developer", resource "QA Engineer", days 0..30 relative) and
B = 2025-01-20..2025-02-20 (owner "QA Engineer", days 19..50), the code gives
"Backend Developer" 0.25 in Month 2, not 0.0: the relative month windows
share their boundary day (window m is `[30m, 30(m+1)]`, both endpoints
included in the overlap count), so A's last day falls into Month 2 with one
overlap day. -/
theorem C2_month2_not_zero :
    roleMonthValue (clean_scope 0 ROLE_RATE_MAP c2Scope).activities
        (clean_scope 0 ROLE_RATE_MAP c2Scope).minStartVal "Backend Developer" 1 = 1/4 ∧
    ¬ (roleMonthValue (clean_scope 0 ROLE_RATE_MAP c2Scope).activities
        (clean_scope 0 ROLE_RATE_MAP c2Scope).minStartVal "Backend Developer" 1 = 0) := by
  refine ⟨?_, ?_⟩
  · rw [← mkRat_14]
    decide
  · decide

/-- C2 (amended): the two-activity scenario yields K = 2 months;
"Backend Developer" gets 31 days in Month 1 (→ 1.0) and 1 boundary day in
Month 2 (→ 0.25, not 0.0); "QA Engineer" accumulates 31 + 12 = 43 days in
Month 1 (→ 1.0) and 21 + 1 = 22 days in Month 2 (so day counts accumulate
across activities before quantization, and A's boundary day lifts Month 2
from 0.75 to 1.0 — Month 2 is not determined by B alone); the plan rows are
exactly as computed (`mkRat 1 4 = 0.25`, `mkRat 5 4 = 1.25`). -/
theorem C2_two_activity_scenario :
    (clean_scope 0 ROLE_RATE_MAP c2Scope).months = 2 ∧
    roleMonthDays (clean_scope 0 ROLE_RATE_MAP c2Scope).activities 0 "Backend Developer" 0 = 31 ∧
    roleMonthDays (clean_scope 0 ROLE_RATE_MAP c2Scope).activities 0 "Backend Developer" 1 = 1 ∧
    roleMonthDays (clean_scope 0 ROLE_RATE_MAP c2Scope).activities 0 "QA Engineer" 0 = 43 ∧
    roleMonthDays (clean_scope 0 ROLE_RATE_MAP c2Scope).activities 0 "QA Engineer" 1 = 22 ∧
    roleMonthValue (clean_scope 0 ROLE_RATE_MAP c2Scope).activities 0 "Backend Developer" 0 = 1 ∧
    roleMonthValue (clean_scope 0 ROLE_RATE_MAP c2Scope).activities 0 "Backend Developer" 1 = 1/4 ∧
    roleMonthValue (clean_scope 0 ROLE_RATE_MAP c2Scope).activities 0 "QA Engineer" 0 = 1 ∧
    roleMonthValue (clean_scope 0 ROLE_RATE_MAP c2Scope).activities 0 "QA Engineer" 1 = 1 ∧
    (clean_scope 0 ROLE_RATE_MAP c2Scope).plan =
      [{ id := 1, role := "Backend Developer", rate := 3000, months := [1, mkRat 1 4],
         total := mkRat 5 4, cost := 3750 },
       { id := 2, role := "QA Engineer", rate := 2000, months := [1, 1],
         total := 2, cost := 4000 }] := by
  refine ⟨by decide, by decide, by decide, by decide, by decide, by decide,
    by rw [← mkRat_14]; decide, by decide, by decide, by decide⟩

theorem mem_mkPlanFrom {rateMap : List (String × ℚ)} {acts : List ActOut} {minS : Int}
    {months : Nat} :
    ∀ {roles : List String} {i : Nat} {p : PlanEntry},
      p ∈ mkPlanFrom rateMap acts minS months i roles →
      p.months = (List.range months).map (fun m => roleMonthValue acts minS p.role m) ∧
      p.total = ratSum p.months ∧
      p.rate = resolveRate rateMap p.role ∧
      p.cost = round2 (ratMul p.total p.rate) := by
  intro roles
  induction roles with
  | nil => intro i p hp; cases hp
  | cons role roles ih =>
    intro i p hp
    rcases List.mem_cons.mp hp with rfl | hp
    · exact ⟨rfl, rfl, rfl, rfl⟩
    · exact ih hp

theorem mem_applyDiscount {disc : ℚ} {plan : List PlanEntry} {p : PlanEntry}
    (h : p ∈ applyDiscount disc plan) :
    ∃ q ∈ plan, p.id = q.id ∧ p.role = q.role ∧ p.rate = q.rate ∧
      p.months = q.months ∧ p.total = q.total ∧
      p.cost = (if 0 < disc then round2 (ratMul q.cost (ratSub 1 (ratDiv100 disc)))
                else q.cost) := by
  unfold applyDiscount at h
  by_cases hd : 0 < disc
  · rw [if_pos hd] at h
    rcases List.mem_map.mp h with ⟨q, hq, rfl⟩
    exact ⟨q, hq, rfl, rfl, rfl, rfl, rfl, by rw [if_pos hd]⟩
  · rw [if_neg hd] at h
    exact ⟨p, h, rfl, rfl, rfl, rfl, rfl, by rw [if_neg hd]⟩

theorem applyDiscount_mem_of_mem {disc : ℚ} {plan : List PlanEntry} {q : PlanEntry}
    (h : q ∈ plan) :
    ∃ p ∈ applyDiscount disc plan, p.id = q.id ∧ p.role = q.role ∧ p.rate = q.rate ∧
      p.months = q.months ∧ p.total = q.total ∧
      p.cost = (if 0 < disc then round2 (ratMul q.cost (ratSub 1 (ratDiv100 disc)))
                else q.cost) := by
  unfold applyDiscount
  by_cases hd : 0 < disc
  · rw [if_pos hd]
    refine ⟨_, List.mem_map_of_mem _ h, rfl, rfl, rfl, rfl, rfl, by rw [if_pos hd]⟩
  · rw [if_neg hd]
    exact ⟨q, h, rfl, rfl, rfl, rfl, rfl, by rw [if_neg hd]⟩

theorem applyDiscount_map_core (disc : ℚ) (plan : List PlanEntry) :
    (applyDiscount disc plan).map (fun p => (p.id, p.role, p.rate, p.months, p.total))
      = plan.map (fun p => (p.id, p.role, p.rate, p.months, p.total)) := by
  unfold applyDiscount
  by_cases hd : 0 < disc
  · rw [if_pos hd, List.map_map]
    rfl
  · rw [if_neg hd]

def c4ScenAct : ActIn :=
  { activities := "Full build", description := "dev", owner := "QA Engineer",
    resources := [], startDate := some 0, endDate := some 59 }

def c4Scen : ScopeIn := { activities := [c4ScenAct], discount := 10 }

/-- C4 (amended): for every resourcing-plan row, `total_effort` is the sum of
the row's monthly efforts and is insensitive to the discount (as are rate,
months, ids, roles, and the activity dates); the cost is
`round(round(total_effort * rate, 2) * (1 - discount/100), 2)` when a
positive discount is present — the discount multiplies the already-rounded
undiscounted cost, which differs from the claim's single rounding
`round(total_effort * rate * (1 - discount/100), 2)` at double-rounding
boundaries — and `round(total_effort * rate, 2)` otherwise; the scenario
`total_effort = 2.0, rate = 2000, discount = 10` yields cost 3600.00. -/
theorem C4_cost_law_amended (today : Int) (rateMap : List (String × ℚ)) (inp : ScopeIn) :
    (∀ p ∈ (clean_scope today rateMap inp).plan,
      p.total = p.months.sum ∧
      p.cost = (if 0 < inp.discount
        then round2 (round2 (p.total * p.rate) * (1 - inp.discount / 100))
        else round2 (p.total * p.rate))) ∧
    ((clean_scope today rateMap { activities := inp.activities, discount := 0 }).activities
      = (clean_scope today rateMap inp).activities) ∧
    ((clean_scope today rateMap { activities := inp.activities, discount := 0 }).plan.map
        (fun p => (p.id, p.role, p.rate, p.months, p.total))
      = (clean_scope today rateMap inp).plan.map
        (fun p => (p.id, p.role, p.rate, p.months, p.total))) ∧
    (clean_scope 0 ROLE_RATE_MAP c4Scen).plan =
      [{ id := 1, role := "QA Engineer", rate := 2000, months := [1, 1],
         total := 2, cost := 3600 }] := by
  refine ⟨?_, rfl, ?_, by decide⟩
  · intro p hp
    rcases mem_applyDiscount hp with ⟨q, hq, _, _, hrate, hmo, htot, hcost⟩
    rcases mem_mkPlanFrom hq with ⟨_, hqtot, _, hqcost⟩
    constructor
    · rw [htot, hqtot, ratSum_eq, hmo]
    · rw [hcost, hqcost, ratMul_eq, ratSub_eq, ratDiv100_eq, ratMul_eq, htot, hrate]
  · exact (applyDiscount_map_core 0
      (mkPlanFrom rateMap (cleanActs today inp.activities) (minStart today inp.activities)
        (totalMonths today inp.activities) 1 (roleOrder inp.activities))).trans
      (applyDiscount_map_core inp.discount
        (mkPlanFrom rateMap (cleanActs today inp.activities) (minStart today inp.activities)
          (totalMonths today inp.activities) 1 (roleOrder inp.activities))).symm

def c4CxAct : ActIn :=
  { activities := "Tiny task", description := "one day", owner := "Solo",
    resources := [], startDate := some 0, endDate := some 0 }

def c4Cx : ScopeIn := { activities := [c4CxAct], discount := 10 }

def c4CxRates : List (String × ℚ) := [("Solo", mkRat 2000022 1000)]

/-- Counterexample to C4 as stated: a one-day activity gives effort 0.25 for
"Solo"; with rate 2000.022 and discount 10 the code computes
`round(round(0.25 * 2000.022, 2) * 0.9, 2) = round(500.01 * 0.9, 2) = 450.01`,
while the claim's single rounding gives
`round(0.25 * 2000.022 * 0.9, 2) = round(450.00495, 2) = 450.00`. -/
theorem C4_double_rounding_counterexample :
    ((clean_scope 0 c4CxRates c4Cx).plan.map (fun p => p.cost)) = [mkRat 45001 100] ∧
    ((clean_scope 0 c4CxRates c4Cx).plan.map
        (fun p => round2 (p.total * p.rate * (1 - c4Cx.discount / 100)))) = [450] ∧
    ¬ ((clean_scope 0 c4CxRates c4Cx).plan.map (fun p => p.cost)
        = (clean_scope 0 c4CxRates c4Cx).plan.map
            (fun p => round2 (p.total * p.rate * (1 - c4Cx.discount / 100)))) := by
  refine ⟨by decide, ?_, ?_⟩
  · simp only [← ratDiv100_eq, ← ratSub_eq, ← ratMul_eq]
    decide
  · simp only [← ratDiv100_eq, ← ratSub_eq, ← ratMul_eq]
    decide

/-- The plan row of the C4 scenario. -/
def c4Row : PlanEntry :=
  { id := 1, role := "QA Engineer", rate := 2000, months := [1, 1],
    total := 2, cost := 3600 }

/-- Witness for C4 at the scenario input (discount 10, total effort 2,
rate 2000): the plan row satisfies the amended cost law. -/
theorem C4_cost_law_amended_witness :
    c4Row.total = c4Row.months.sum ∧
    c4Row.cost = (if 0 < c4Scen.discount
      then round2 (round2 (c4Row.total * c4Row.rate) * (1 - c4Scen.discount / 100))
      else round2 (c4Row.total * c4Row.rate)) :=
  (C4_cost_law_amended 0 ROLE_RATE_MAP c4Scen).1 c4Row (by decide)

/-! ## The regression guard of `regenerate_from_instructions` -/

/-- A scope as handled by `regenerate_from_instructions`: overview (free-form
here), activities and resourcing plan. -/
structure RegenScope where
  overview : String
  activities : List ActIn
  rplan : List PlanEntry
  deriving DecidableEq

/-- The hard-coded `common_roles` list used to detect activities named after
roles. -/
def commonRoles : List String :=
  ["project manager", "business analyst", "data architect", "data engineer",
   "backend developer", "frontend developer", "qa engineer", "devops engineer",
   "cloud architect", "data analyst", "ux designer"]

/-- `len(set(...))`: the number of distinct elements. -/
def distinctCount {α : Type} [DecidableEq α] (l : List α) : Nat :=
  (l.foldl (fun acc x => if x ∈ acc then acc else x :: acc) []).length

/-- The structural-degeneracy validation of the regeneration guard: with a
nonempty response, activities are invalid when more than 50% have an
unassigned/empty owner, or more than 50% have an empty description, or more
than 30% are named after a common role, or all share one (start, end) pair. -/
def regenValid (acts : List ActIn) : Bool :=
  if acts.isEmpty then true
  else
    let n := acts.length
    let unassigned := acts.countP
      (fun a => pyLower a.owner == "unassigned" || pyLower a.owner == "")
    let emptyDesc := acts.countP (fun a => pyStrip a.description == "")
    let roleName := acts.countP
      (fun a => commonRoles.contains (pyStrip (pyLower a.activities)))
    let uniqueDates := distinctCount (acts.map (fun a => (a.startDate, a.endDate)))
    !(decide (n < 2 * unassigned)) && !(decide (n < 2 * emptyDesc)) &&
      !(decide (3 * n < 10 * roleName)) && !(uniqueDates == 1 && decide (1 < n))

/-- The verbatim-restore assignment of the regeneration guard: keep the
response but put back the draft's activities; copy the draft's resourcing
plan only when the response has none. -/
def restoreScope (draft upd : RegenScope) : RegenScope :=
  { upd with activities := draft.activities,
             rplan := if upd.rplan.isEmpty then draft.rplan else upd.rplan }

/-- The restore step of `regenerate_from_instructions` (activity-count check,
degeneracy check, restore, and the final empty-activities safety net).
`isRemoval` is `'remove' in instructions or 'delete' in instructions`.
The draft's resourcing plan is copied only when the response carries none;
the later `clean_scope` call recomputes the plan from the activities in any
case.  The instruction post-processing (manual role removal, discount
extraction) sits between this step and `clean_scope` and is outside this
model. -/
def regenerate_guard (draft upd : RegenScope) (isRemoval : Bool) : RegenScope :=
  let upd1 :=
    if (decide (10 * upd.activities.length < 7 * draft.activities.length) && !isRemoval)
        || !(regenValid upd.activities) then restoreScope draft upd
    else upd
  if upd1.activities.isEmpty then restoreScope draft upd1 else upd1

def c5Act (i : Int) : ActIn :=
  { activities := "Phase", description := "work", owner := "Backend Developer",
    resources := [], startDate := some (5 * i), endDate := some (5 * i + 40) }

def c5Draft : RegenScope :=
  { overview := "original overview",
    activities := [c5Act 0, c5Act 1, c5Act 2, c5Act 3, c5Act 4, c5Act 5,
                   c5Act 6, c5Act 7, c5Act 8, c5Act 9],
    rplan := [] }

def c5Degenerate : ActIn :=
  { activities := "Project Manager", description := "x", owner := "Project Manager",
    resources := [], startDate := some 0, endDate := some 10 }

def c5Upd : RegenScope :=
  { overview := "regenerated overview",
    activities := [c5Degenerate, c5Degenerate, c5Degenerate],
    rplan := [] }

/-- C5 (amended): whenever the regenerated activity count drops below 70% of
the draft's without a removal instruction, or the regenerated activities are
structurally degenerate, the guard restores the draft's activities verbatim;
the draft's resourcing-plan field is copied only when the response carries no
plan (a nonempty response plan is kept at this step, and the normalizer
recomputes the plan from the restored activities afterwards); the overview is
taken from the response.  In the 10-activity draft vs 3 degenerate activities
scenario the original 10 activities survive unchanged through the guard and
the normalizer. -/
theorem C5_regression_guard_amended :
    (∀ (draft upd : RegenScope) (isRemoval : Bool),
      ((10 * upd.activities.length < 7 * draft.activities.length ∧ isRemoval = false)
        ∨ regenValid upd.activities = false) →
      (regenerate_guard draft upd isRemoval).activities = draft.activities ∧
      (upd.rplan = [] → (regenerate_guard draft upd isRemoval).rplan = draft.rplan) ∧
      (upd.rplan ≠ [] → (regenerate_guard draft upd isRemoval).rplan = upd.rplan) ∧
      (regenerate_guard draft upd isRemoval).overview = upd.overview) ∧
    regenValid c5Upd.activities = false ∧
    c5Draft.activities.length = 10 ∧ c5Upd.activities.length = 3 ∧
    (regenerate_guard c5Draft c5Upd false).activities = c5Draft.activities ∧
    ((cleanActs 0 (regenerate_guard c5Draft c5Upd false).activities).map
        (fun b => (b.activities, b.owner, b.startDate, b.endDate))
      = [("Phase", "Backend Developer", 0, 40), ("Phase", "Backend Developer", 5, 45),
         ("Phase", "Backend Developer", 10, 50), ("Phase", "Backend Developer", 15, 55),
         ("Phase", "Backend Developer", 20, 60), ("Phase", "Backend Developer", 25, 65),
         ("Phase", "Backend Developer", 30, 70), ("Phase", "Backend Developer", 35, 75),
         ("Phase", "Backend Developer", 40, 80), ("Phase", "Backend Developer", 45, 85)]) := by
  refine ⟨?_, by decide, by decide, by decide, by decide, by decide⟩
  intro draft upd isRemoval h
  have hcond : ((decide (10 * upd.activities.length < 7 * draft.activities.length)
      && !isRemoval) || !(regenValid upd.activities)) = true := by
    rcases h with ⟨hlt, hrem⟩ | hval
    · subst hrem
      simp [hlt]
    · simp [hval]
  simp only [regenerate_guard]
  rw [if_pos hcond]
  by_cases hra : (restoreScope draft upd).activities.isEmpty = true
  · rw [if_pos hra]
    refine ⟨rfl, ?_, ?_, rfl⟩
    · intro hu
      have h1 : (restoreScope draft upd).rplan = draft.rplan := by
        show (if upd.rplan.isEmpty = true then draft.rplan else upd.rplan) = draft.rplan
        rw [if_pos (by simp [hu])]
      show (if (restoreScope draft upd).rplan.isEmpty = true then draft.rplan
            else (restoreScope draft upd).rplan) = draft.rplan
      rw [h1]
      exact ite_self draft.rplan
    · intro hu
      have h1 : (restoreScope draft upd).rplan = upd.rplan := by
        show (if upd.rplan.isEmpty = true then draft.rplan else upd.rplan) = upd.rplan
        rw [if_neg (by simp [hu])]
      show (if (restoreScope draft upd).rplan.isEmpty = true then draft.rplan
            else (restoreScope draft upd).rplan) = upd.rplan
      rw [h1, if_neg (by simp [hu])]
  · rw [if_neg hra]
    refine ⟨rfl, ?_, ?_, rfl⟩
    · intro hu
      show (if upd.rplan.isEmpty = true then draft.rplan else upd.rplan) = draft.rplan
      rw [if_pos (by simp [hu])]
    · intro hu
      show (if upd.rplan.isEmpty = true then draft.rplan else upd.rplan) = upd.rplan
      rw [if_neg (by simp [hu])]

def c5NormalAct : ActIn :=
  { activities := "Design review", description := "review", owner := "Solution Architect",
    resources := [], startDate := some 0, endDate := some 20 }

def c5PlanP : PlanEntry :=
  { id := 1, role := "Solution Architect", rate := 4000, months := [1], total := 1, cost := 4000 }

def c5PlanQ : PlanEntry :=
  { id := 1, role := "Data Engineer", rate := 2800, months := [1], total := 1, cost := 2800 }

def c5DraftP : RegenScope :=
  { overview := "original", activities := [c5NormalAct, c5NormalAct], rplan := [c5PlanP] }

def c5UpdQ : RegenScope :=
  { overview := "regenerated", activities := [c5Degenerate, c5Degenerate], rplan := [c5PlanQ] }

/-- Counterexample to C5 as stated: when the degenerate response carries a
nonempty resourcing plan of its own, the guard restores the draft's
activities but keeps the response's plan — the draft's resource plan is not
restored verbatim. -/
theorem C5_plan_not_restored :
    (regenerate_guard c5DraftP c5UpdQ false).activities = c5DraftP.activities ∧
    (regenerate_guard c5DraftP c5UpdQ false).rplan ≠ c5DraftP.rplan := by
  refine ⟨by decide, by decide⟩

/-- Witness for C5: the guard fires on the 10-activity draft vs 3 degenerate
activities (restoring activities, copying the empty plan, keeping the
response overview), and on the nonempty-plan response it keeps that plan. -/
theorem C5_regression_guard_amended_witness :
    (regenerate_guard c5Draft c5Upd false).activities = c5Draft.activities ∧
    (regenerate_guard c5Draft c5Upd false).rplan = c5Draft.rplan ∧
    (regenerate_guard c5DraftP c5UpdQ false).rplan = c5UpdQ.rplan ∧
    (regenerate_guard c5Draft c5Upd false).overview = c5Upd.overview :=
  ⟨((C5_regression_guard_amended).1 c5Draft c5Upd false (Or.inr (by decide))).1,
   ((C5_regression_guard_amended).1 c5Draft c5Upd false (Or.inr (by decide))).2.1 rfl,
   ((C5_regression_guard_amended).1 c5DraftP c5UpdQ false (Or.inr (by decide))).2.2.1
     (by decide),
   ((C5_regression_guard_amended).1 c5Draft c5Upd false (Or.inl (by decide))).2.2.2⟩

/-- C7: rate resolution follows the fallback chain — the owning company's
nonempty rate-card map; else Sigmoid's nonempty rate-card map; else the
static `ROLE_RATE_MAP`; and a role absent from the selected map and from the
static table gets the fixed default rate 2000.  Every plan row's rate is
resolved exactly this way from the dynamic map. -/
theorem C7_rate_fallback_chain :
    (∀ (cc sc : Option (List (String × ℚ))) (c : String × ℚ) (cs : List (String × ℚ)),
      cc = some (c :: cs) → get_rate_map_for_project cc sc = c :: cs) ∧
    (∀ (cc sc : Option (List (String × ℚ))) (c : String × ℚ) (cs : List (String × ℚ)),
      (cc = none ∨ cc = some []) → sc = some (c :: cs) →
      get_rate_map_for_project cc sc = c :: cs) ∧
    (∀ (cc sc : Option (List (String × ℚ))),
      (cc = none ∨ cc = some []) → (sc = none ∨ sc = some []) →
      get_rate_map_for_project cc sc = ROLE_RATE_MAP) ∧
    (∀ (m : List (String × ℚ)) (role : String),
      dictGet m role = none → dictGet ROLE_RATE_MAP role = none →
      resolveRate m role = 2000) ∧
    (∀ (today : Int) (rateMap : List (String × ℚ)) (inp : ScopeIn) (p : PlanEntry),
      p ∈ (clean_scope today rateMap inp).plan → p.rate = resolveRate rateMap p.role) := by
  refine ⟨?_, ?_, ?_, ?_, ?_⟩
  · intro cc sc c cs h
    subst h
    rfl
  · intro cc sc c cs h1 h2
    subst h2
    rcases h1 with rfl | rfl <;> rfl
  · intro cc sc h1 h2
    rcases h1 with rfl | rfl <;> rcases h2 with rfl | rfl <;> rfl
  · intro m role h1 h2
    unfold resolveRate
    rw [h1, h2]
    rfl
  · intro today rateMap inp p hp
    rcases mem_applyDiscount hp with ⟨q, hq, _, hrole, hrate, _, _, _⟩
    rcases mem_mkPlanFrom hq with ⟨_, _, hqrate, _⟩
    rw [hrate, hqrate, hrole]

def c7Card : List (String × ℚ) := [("Backend Developer", 3100)]

def c7Act : ActIn :=
  { activities := "API work", description := "build", owner := "Backend Developer",
    resources := [], startDate := some 0, endDate := some 10 }

def c7Scope : ScopeIn := { activities := [c7Act], discount := 0 }

def c7Row : PlanEntry :=
  { id := 1, role := "Backend Developer", rate := 3100, months := [mkRat 1 2],
    total := mkRat 1 2, cost := 1550 }

def c7SigmoidCard : List (String × ℚ) := [("QA Engineer", 1900)]

/-- Witness for C7: each link of the chain at concrete card sets, and a plan
row whose rate was resolved from the dynamic map. -/
theorem C7_rate_fallback_chain_witness :
    get_rate_map_for_project (some c7Card) (some c7SigmoidCard) = c7Card ∧
    get_rate_map_for_project (some []) (some c7SigmoidCard) = c7SigmoidCard ∧
    get_rate_map_for_project none none = ROLE_RATE_MAP ∧
    resolveRate c7Card "Chief Buzzword Officer" = 2000 ∧
    c7Row.rate = resolveRate c7Card c7Row.role :=
  ⟨C7_rate_fallback_chain.1 (some c7Card) (some c7SigmoidCard) _ _ rfl,
   C7_rate_fallback_chain.2.1 (some []) (some c7SigmoidCard) _ _ (Or.inr rfl) rfl,
   C7_rate_fallback_chain.2.2.1 none none (Or.inl rfl) (Or.inl rfl),
   C7_rate_fallback_chain.2.2.2.1 c7Card "Chief Buzzword Officer" (by decide) (by decide),
   C7_rate_fallback_chain.2.2.2.2 0 c7Card c7Scope c7Row (by decide)⟩

/-! ## The guards of `generate_project_scope` -/

/-- An activity counted as garbage by the content guard: empty name, empty
description, or owner equal (case-insensitively) to "unassigned" or empty. -/
def badActivity (a : ActIn) : Bool :=
  pyStrip a.activities == "" || pyStrip a.description == "" ||
    pyLower a.owner == "unassigned" || pyLower a.owner == ""

/-- The two rejection guards of `generate_project_scope`, which uses the raw
model text and the activities extracted from it and performs no retry: an
empty or under-50-character (after strip) response yields the empty result;
so does a nonempty activity list in which more than 70% of activities are
garbage.  `none` models the empty dict returned to the caller; `some`
continues into `clean_scope`. -/
def generate_scope_guard (raw : String) (parsed : List ActIn) : Option (List ActIn) :=
  if (pyStrip raw).length < 50 then none
  else if !parsed.isEmpty && decide (7 * parsed.length < 10 * parsed.countP badActivity) then
    none
  else some parsed

/-- C8: scope generation returns the empty result, with no retry, when the
response is empty or shorter than 50 characters after stripping, and when
more than 70% of the extracted activities have an empty name/description or
an unassigned/empty owner. -/
theorem C8_generation_guards :
    (∀ (raw : String) (parsed : List ActIn),
      (pyStrip raw).length < 50 → generate_scope_guard raw parsed = none) ∧
    (∀ (raw : String) (parsed : List ActIn),
      parsed ≠ [] → 7 * parsed.length < 10 * parsed.countP badActivity →
      generate_scope_guard raw parsed = none) := by
  constructor
  · intro raw parsed h
    unfold generate_scope_guard
    rw [if_pos h]
  · intro raw parsed hne hbad
    unfold generate_scope_guard
    by_cases hs : (pyStrip raw).length < 50
    · rw [if_pos hs]
    · rw [if_neg hs, if_pos]
      simp only [Bool.and_eq_true, Bool.not_eq_true', decide_eq_true_eq]
      exact ⟨by simpa [List.isEmpty_iff] using hne, hbad⟩

def c8BadAct : ActIn :=
  { activities := "Something", description := "", owner := "unassigned",
    resources := [], startDate := none, endDate := none }

def c8GoodAct : ActIn :=
  { activities := "Build feature", description := "implement it",
    owner := "Backend Developer", resources := [], startDate := some 0,
    endDate := some 10 }

def c8LongRaw : String :=
  " a response body that is certainly longer than the fifty character cutoff "

/-- Witness for C8: a short response is rejected, and a 10-activity response
with 8 garbage activities (80% > 70%) under a long raw text is rejected. -/
theorem C8_generation_guards_witness :
    generate_scope_guard "too short" [c8GoodAct] = none ∧
    generate_scope_guard c8LongRaw
      [c8BadAct, c8BadAct, c8BadAct, c8BadAct, c8BadAct, c8BadAct, c8BadAct,
       c8BadAct, c8GoodAct, c8GoodAct] = none :=
  ⟨C8_generation_guards.1 "too short" [c8GoodAct] (by decide),
   C8_generation_guards.2 c8LongRaw
     [c8BadAct, c8BadAct, c8BadAct, c8BadAct, c8BadAct, c8BadAct, c8BadAct,
      c8BadAct, c8GoodAct, c8GoodAct] (by decide) (by decide)⟩

theorem mem_addNewRoles_left {x : String} {acc rs : List String} (h : x ∈ acc) :
    x ∈ addNewRoles acc rs := by
  induction rs generalizing acc with
  | nil => exact h
  | cons r rs ih =>
    show x ∈ List.foldl _ (if r ∈ acc then acc else acc ++ [r]) rs
    by_cases hr : r ∈ acc
    · rw [if_pos hr]
      exact ih h
    · rw [if_neg hr]
      exact ih (List.mem_append_left _ h)

theorem mem_addNewRoles_right {x : String} {acc rs : List String} (h : x ∈ rs) :
    x ∈ addNewRoles acc rs := by
  induction rs generalizing acc with
  | nil => cases h
  | cons r rs ih =>
    show x ∈ List.foldl _ (if r ∈ acc then acc else acc ++ [r]) rs
    rcases List.mem_cons.mp h with rfl | hx
    · by_cases hr : x ∈ acc
      · rw [if_pos hr]
        exact mem_addNewRoles_left hr
      · rw [if_neg hr]
        exact mem_addNewRoles_left (List.mem_append_right _ (List.mem_singleton.mpr rfl))
    · by_cases hr : r ∈ acc
      · rw [if_pos hr]
        exact ih hx
      · rw [if_neg hr]
        exact ih hx

theorem mem_roleOrder {r : String} {acts : List ActIn} {a : ActIn}
    (ha : a ∈ acts) (hr : r ∈ rolesOfIn a) : r ∈ roleOrder acts := by
  have key : ∀ (l : List ActIn) (acc : List String), a ∈ l →
      r ∈ l.foldl (fun acc a => addNewRoles acc (rolesOfIn a)) acc := by
    intro l
    induction l with
    | nil => intro acc h; cases h
    | cons b l ih =>
      intro acc h
      rcases List.mem_cons.mp h with rfl | h
      · have h1 : r ∈ addNewRoles acc (rolesOfIn a) := mem_addNewRoles_right hr
        have key2 : ∀ (l : List ActIn) (acc : List String), r ∈ acc →
            r ∈ l.foldl (fun acc a => addNewRoles acc (rolesOfIn a)) acc := by
          intro l
          induction l with
          | nil => intro acc h; exact h
          | cons c l ih2 => intro acc h; exact ih2 _ (mem_addNewRoles_left h)
        exact key2 l _ h1
      · exact ih _ h
  exact key acts [] ha

theorem mkPlanFrom_exists {rateMap : List (String × ℚ)} {acts : List ActOut} {minS : Int}
    {months : Nat} {role : String} :
    ∀ {roles : List String} (i : Nat), role ∈ roles →
      ∃ p ∈ mkPlanFrom rateMap acts minS months i roles, p.role = role := by
  intro roles
  induction roles with
  | nil => intro i h; cases h
  | cons r roles ih =>
    intro i h
    rcases List.mem_cons.mp h with rfl | h
    · exact ⟨_, List.mem_cons_self _ _, rfl⟩
    · rcases ih (i + 1) h with ⟨p, hp, hrole⟩
      exact ⟨p, List.mem_cons_of_mem _ hp, hrole⟩

/-- C9: an activity with a missing/empty Owner gets the owner "Unassigned";
"Unassigned" then appears among the normalized activities' owners and as a
resourcing-plan row built exactly like any real role — monthly allocations
over the project months, the default monthly rate 2000 (it is absent from
the static table; the hypothesis says the dynamic rate card also lacks it),
total effort equal to the sum of its monthly values and the standard cost
formula. -/
theorem C9_unassigned_owner (today : Int) (rateMap : List (String × ℚ)) (inp : ScopeIn)
    (a : ActIn) (ha : a ∈ inp.activities) (how : a.owner = "")
    (hr : dictGet rateMap "Unassigned" = none) :
    (normAct today a).owner = "Unassigned" ∧
    (∃ b ∈ (clean_scope today rateMap inp).activities, b.owner = "Unassigned") ∧
    (∃ p ∈ (clean_scope today rateMap inp).plan, p.role = "Unassigned" ∧ p.rate = 2000 ∧
      p.months.length = (clean_scope today rateMap inp).months ∧
      p.total = p.months.sum ∧
      p.cost = (if 0 < inp.discount
        then round2 (round2 (p.total * p.rate) * (1 - inp.discount / 100))
        else round2 (p.total * p.rate))) := by
  have howner : (normAct today a).owner = "Unassigned" := by
    show pyOwner a.owner = "Unassigned"
    rw [how]
    rfl
  refine ⟨howner, ?_, ?_⟩
  · have h1 : normAct today a ∈ inp.activities.map (normAct today) :=
      List.mem_map_of_mem _ ha
    have h2 : normAct today a ∈ sortByStart (inp.activities.map (normAct today)) :=
      (sortByStart_perm _).mem_iff.mpr h1
    have h3 : "Unassigned" ∈ (sortByStart (inp.activities.map (normAct today))).map
        (fun b => b.owner) := by
      rw [← howner]
      exact List.mem_map_of_mem _ h2
    have h4 : "Unassigned" ∈ (cleanActs today inp.activities).map (fun b => b.owner) := by
      show "Unassigned" ∈ (assignIdsFrom 1 _).map (fun b => b.owner)
      rw [assignIdsFrom_map_owner]
      exact h3
    rcases List.mem_map.mp h4 with ⟨b, hb, hbo⟩
    exact ⟨b, hb, hbo⟩
  · have hrole : "Unassigned" ∈ roleOrder inp.activities := by
      refine mem_roleOrder ha ?_
      show "Unassigned" ∈ pyOwner a.owner :: _
      rw [how]
      exact List.mem_cons_self _ _
    rcases mkPlanFrom_exists 1 hrole with ⟨q, hq, hqrole⟩
    rcases @applyDiscount_mem_of_mem inp.discount _ q hq with
      ⟨p, hp, _, hprole, hprate, hpmonths, hptotal, hpcost⟩
    rcases mem_mkPlanFrom hq with ⟨hqm, hqtot, hqrate, hqcost⟩
    have hrate2000 : q.rate = 2000 := by
      rw [hqrate, hqrole]
      unfold resolveRate
      rw [hr]
      rfl
    refine ⟨p, hp, hprole.trans hqrole, hprate.trans hrate2000, ?_, ?_, ?_⟩
    · rw [hpmonths, hqm]
      show _ = totalMonths today inp.activities
      rw [List.length_map, List.length_range]
    · rw [hptotal, hqtot, ratSum_eq, hpmonths]
    · rw [hpcost, hqcost, ratMul_eq, ratSub_eq, ratDiv100_eq, ratMul_eq, hptotal, hprate]

def c9Act : ActIn :=
  { activities := "Mystery task", description := "todo", owner := "",
    resources := [], startDate := some 0, endDate := some 10 }

def c9Scope : ScopeIn := { activities := [c9Act], discount := 0 }

/-- Witness for C9 at a one-activity input with empty owner and an empty
dynamic rate map. -/
theorem C9_unassigned_owner_witness :
    (normAct 0 c9Act).owner = "Unassigned" ∧
    (∃ b ∈ (clean_scope 0 [] c9Scope).activities, b.owner = "Unassigned") ∧
    (∃ p ∈ (clean_scope 0 [] c9Scope).plan, p.role = "Unassigned" ∧ p.rate = 2000 ∧
      p.months.length = (clean_scope 0 [] c9Scope).months ∧
      p.total = p.months.sum ∧
      p.cost = (if 0 < c9Scope.discount
        then round2 (round2 (p.total * p.rate) * (1 - c9Scope.discount / 100))
        else round2 (p.total * p.rate))) :=
  C9_unassigned_owner 0 [] c9Scope c9Act (by decide) rfl rfl

/-! ## `_strip_code_fences` and `_extract_json` -/

/-- The JSON values `json.loads` can produce. -/
inductive PyJson where
  | null : PyJson
  | bool : Bool → PyJson
  | num : ℚ → PyJson
  | str : String → PyJson
  | arr : List PyJson → PyJson
  | dict : List (String × PyJson) → PyJson

/-- Index of the first occurrence of `pat` in a character list. -/
def findSub (pat : List Char) : List Char → Option Nat
  | [] => none
  | c :: rest =>
    if pat.isPrefixOf (c :: rest) then some 0 else (findSub pat rest).map (· + 1)

/-- `_strip_code_fences`: the first code-fenced block's body when a fenced
block exists (the regex match between the first fence and the next one, with
a leading case-insensitive "json" tag dropped), otherwise the whole string. -/
def _strip_code_fences (s : String) : String :=
  let fence := ['\x60', '\x60', '\x60']
  match findSub fence s.data with
  | none => s
  | some i =>
    let after := s.data.drop (i + 3)
    match findSub fence after with
    | none => s
    | some j =>
      let mid := after.take j
      if (mid.take 4).map Char.toLower = ['j', 's', 'o', 'n'] then ⟨mid.drop 4⟩
      else ⟨mid⟩

/-- The span from the first `\x7b` to the last `\x7d`, provided the latter
comes strictly later (`start = raw.find("{"); end = raw.rfind("}")` with
`start >= 0 and end > start`). -/
def braceSlice (s : String) : Option String :=
  match s.data.findIdx? (fun c => c == '\x7b'),
      s.data.reverse.findIdx? (fun c => c == '\x7d') with
  | some st, some jr =>
    let en := s.data.length - 1 - jr
    if st < en then some ⟨(s.data.drop st).take (en + 1 - st)⟩ else none
  | _, _ => none

/-- `_extract_json`, parameterized by the JSON parser (`json.loads`, returning
`none` where the library raises): strip code fences, try a direct parse of
the stripped text, fall back to the outermost-brace span, and return the
empty dict when nothing parses.  Total by construction. -/
def _extract_json (parse : String → Option PyJson) (s : String) : PyJson :=
  match parse (pyStrip (_strip_code_fences s)) with
  | some v => v
  | none =>
    match braceSlice (_strip_code_fences s) with
    | some t => (parse t).getD (PyJson.dict [])
    | none => PyJson.dict []

/-- C10: `_extract_json` is a total function of the input string: it returns
the direct parse of the fence-stripped, whitespace-stripped text when that
succeeds; otherwise the parse of the first-`\x7b`-to-last-`\x7d` span when
present, defaulting to the empty dict; otherwise the empty dict — in every
case one of these three outcomes, and the empty dict on empty input. -/
theorem C10_extract_json_total (parse : String → Option PyJson) (s : String) :
    (∀ v, parse (pyStrip (_strip_code_fences s)) = some v → _extract_json parse s = v) ∧
    (parse (pyStrip (_strip_code_fences s)) = none →
      ∀ t, braceSlice (_strip_code_fences s) = some t →
        _extract_json parse s = (parse t).getD (PyJson.dict [])) ∧
    (parse (pyStrip (_strip_code_fences s)) = none →
      braceSlice (_strip_code_fences s) = none →
      _extract_json parse s = PyJson.dict []) ∧
    (_extract_json parse s = PyJson.dict [] ∨
      (∃ v, _extract_json parse s = v ∧
        (parse (pyStrip (_strip_code_fences s)) = some v ∨
          ∃ t, braceSlice (_strip_code_fences s) = some t ∧ parse t = some v))) ∧
    (parse "" = none → _extract_json parse "" = PyJson.dict []) := by
  refine ⟨?_, ?_, ?_, ?_, ?_⟩
  · intro v hv
    unfold _extract_json
    rw [hv]
  · intro h t ht
    unfold _extract_json
    rw [h, ht]
  · intro h hb
    unfold _extract_json
    rw [h, hb]
  · unfold _extract_json
    cases hv : parse (pyStrip (_strip_code_fences s)) with
    | some v => exact Or.inr ⟨v, rfl, Or.inl rfl⟩
    | none =>
      cases hb : braceSlice (_strip_code_fences s) with
      | none => exact Or.inl rfl
      | some t =>
        cases hp : parse t with
        | none =>
          refine Or.inl ?_
          show (parse t).getD (PyJson.dict []) = PyJson.dict []
          rw [hp]
          rfl
        | some v =>
          refine Or.inr ⟨v, ?_, Or.inr ⟨t, rfl, hp⟩⟩
          show (parse t).getD (PyJson.dict []) = v
          rw [hp]
          rfl
  · intro h
    unfold _extract_json
    have h2 : pyStrip (_strip_code_fences "") = "" := rfl
    rw [h2, h]
    rfl

def c10ParseA (t : String) : Option PyJson :=
  if t = "payload" then some (PyJson.str "ok") else none

def c10ParseB (t : String) : Option PyJson :=
  if t = "\x7b a \x7d" then some (PyJson.str "span") else none

def c10ParseFail (_ : String) : Option PyJson := none

/-- Witness for C10: a direct parse of the stripped text wins; a failed
direct parse falls back to the first-brace/last-brace span; nothing parseable
(including the empty input) yields the empty dict. -/
theorem C10_extract_json_total_witness :
    _extract_json c10ParseA "  payload  " = PyJson.str "ok" ∧
    _extract_json c10ParseB "x \x7b a \x7d y" = PyJson.str "span" ∧
    _extract_json c10ParseFail "no braces here" = PyJson.dict [] ∧
    _extract_json c10ParseFail "" = PyJson.dict [] :=
  ⟨(C10_extract_json_total c10ParseA "  payload  ").1 (PyJson.str "ok") rfl,
   ((C10_extract_json_total c10ParseB "x \x7b a \x7d y").2.1 rfl "\x7b a \x7d" rfl).trans rfl,
   (C10_extract_json_total c10ParseFail "no braces here").2.2.1 rfl rfl,
   (C10_extract_json_total c10ParseFail "").2.2.2.2 rfl⟩
